import Mathlib

/-!
Verification of the templer.core command-line front end
(`src/templer/core/control_script.py`) against its specification.

The development shallowly embeds the decision logic of the module:

* `_checkdots` — the output-name validator (`Runner._checkdots`);
* `_process_args` — the CLI token parser (`Runner._process_args`),
  including the mutation of the caller's argument list by `args.pop(0)`
  and the distinction between the `SyntaxError`s the caller catches and
  the `ValueError` escaping from `arg.split('=')`;
* `name_resolution_loop` — the interactive output-name prompt loop of
  `Runner.__call__`, driven by an explicit list of operator responses;
* `resolve_for` — the layered-configuration merge, which is described by
  the specification but absent from the source tree, modelled from the
  specification text.

Strings are handled through their character lists; Python `dict`s become
association lists with in-place update (`dictInsert`), which preserves
Python's key-uniqueness and lookup semantics.
-/

set_option autoImplicit false

deriving instance DecidableEq for Except

/-- Result of the Python expression `s.find('=')`: index of the first
occurrence of the character, `none` standing for Python's `-1`. -/
def eqIndexAux : List Char → Nat → Option Nat
  | [], _ => none
  | c :: rest, i => if c = '=' then some i else eqIndexAux rest (i + 1)

/-- Index of the first `=` in a string, `none` if there is none. -/
def eqIndex (s : String) : Option Nat := eqIndexAux s.toList 0

/-- Python `s.split('=')` on character lists: split at every `=`,
keeping empty parts, always returning at least one part. -/
def splitEq : List Char → List (List Char)
  | [] => [[]]
  | c :: rest =>
    if c = '=' then [] :: splitEq rest
    else
      match splitEq rest with
      | [] => [[c]]
      | p :: ps => (c :: p) :: ps

/-- Does `p` match the beginning of the second list? -/
def headMatches : List Char → List Char → Bool
  | [], _ => true
  | _ :: _, [] => false
  | p :: ps, c :: cs => p == c && headMatches ps cs

/-- Python's substring test `p in s` on character lists. -/
def containsSub (p : List Char) : List Char → Bool
  | [] => headMatches p []
  | c :: cs => headMatches p (c :: cs) || containsSub p cs

/-- The banned key substring checked by `_process_args`. -/
def svnKeyChars : List Char := "svn-repository".toList

/-- The Python test `'svn-repository' in key`. -/
def hasSvnKey (key : List Char) : Bool := containsSub svnKeyChars key

/-- Python truthiness of the `output_name` variable: `None` and the
empty string are falsy. -/
def pyFalsy : Option String → Bool
  | none => true
  | some s => s = ""

/-- Python `dict` update `d[k] = v`: replace the value in place when the
key exists, append otherwise. Keeps keys unique. -/
def dictInsert (k v : String) : List (String × String) → List (String × String)
  | [] => [(k, v)]
  | (k', v') :: rest =>
    if k' = k then (k, v) :: rest else (k', v') :: dictInsert k v rest

/-- Python `dict` lookup `d.get(k)`. -/
def lookupD : List (String × String) → String → Option String
  | [], _ => none
  | (k', v) :: rest, k => if k' = k then some v else lookupD rest k

/-- The ways `Runner._process_args` can terminate abnormally.
`noTemplate`, `malformed` and `svnRepository` are the `SyntaxError`s the
caller catches (distinguished by their message); `unhandledValueError`
is the `ValueError` escaping from the two-way unpacking of
`arg.split('=')`, which the caller does not catch. -/
inductive ProcError
  | noTemplate
  | malformed (tok : String)
  | svnRepository
  | unhandledValueError (tok : String)
deriving DecidableEq

/-- The triple returned by `Runner._process_args`. -/
structure ParsedInvocation where
  template_name : String
  output_name : Option String
  overrides : List (String × String)
deriving DecidableEq

/-- The token-classification loop of `Runner._process_args`: one token
at a time, a token without `=` becomes `output_name` while that variable
is falsy, a token with `=` at a positive index is split in two and added
to the overrides after the `svn-repository` policy check, and anything
else raises `SyntaxError(arg)`. -/
def _process_args_loop (oname : Option String) (others : List (String × String)) :
    List String → Except ProcError (Option String × List (String × String))
  | [] => .ok (oname, others)
  | arg :: rest =>
    match eqIndex arg with
    | none =>
      if pyFalsy oname then _process_args_loop (some arg) others rest
      else .error (.malformed arg)
    | some 0 => .error (.malformed arg)
    | some (_ + 1) =>
      match splitEq arg.toList with
      | [kcs, vcs] =>
        if hasSvnKey kcs then .error .svnRepository
        else _process_args_loop oname (dictInsert (String.mk kcs) (String.mk vcs) others) rest
      | _ => .error (.unhandledValueError arg)

/-- `Runner._process_args` together with its effect on the caller's
list: `args.pop(0)` removes the first token (raising the caught
`IndexError` on an empty list, which leaves it unchanged), and the
remaining tokens are classified by `_process_args_loop`. The first
component is the caller's list as it stands after the call. -/
def _process_args_full (args : List String) :
    List String × Except ProcError ParsedInvocation :=
  match args with
  | [] => ([], .error .noTemplate)
  | t :: rest =>
    (rest,
      match _process_args_loop none [] rest with
      | .ok (oname, others) => .ok ⟨t, oname, others⟩
      | .error e => .error e)

/-- The value of `Runner._process_args`, ignoring the mutation. -/
def _process_args (args : List String) : Except ProcError ParsedInvocation :=
  (_process_args_full args).2

/-- Whether an `Except` computation succeeded. -/
def exceptOk {ε α : Type} : Except ε α → Bool
  | .ok _ => true
  | .error _ => false

/-- Number of dots in a name, Python `name.count "."`. -/
def countDots (name : String) : Nat := name.toList.countP (· = '.')

/-- The message of the `ValueError` raised by `_checkdots`. -/
def dotLimitMsg : String :=
  "Five dots should be more than enough, no black hole please"

/-- `Runner._checkdots(template, name)`: the body only counts the dots
in `name` and raises when there are more than five; the template's
`ndots` attribute, received here as the first argument, is never
consulted. -/
def _checkdots (_ndots : Option Nat) (name : String) : Except String Unit :=
  if 5 < countDots name then .error dotLimitMsg else .ok ()

/-- What one pass of the body of the prompt loop in `Runner.__call__`
does with the operator's response. -/
inductive IterResult
  | exitCancelled
  | raiseErr (msg : String)
  | breakWith (name : String)
deriving DecidableEq

/-- One iteration of the prompt loop: `q` calls `sys.exit(0)`; a name
passing `_checkdots` reaches the `else: break`; a `ValueError` lands in
the `except` branch, which prints and then re-raises (`raise`), ending
the whole call. No branch flows back to the top of the loop. -/
def name_loop_body (ndots : Option Nat) (inp : String) : IterResult :=
  if inp = "q" then .exitCancelled
  else
    match _checkdots ndots inp with
    | .ok _ => .breakWith inp
    | .error e => .raiseErr e

/-- Observable outcome of the name-resolution phase. -/
inductive SessionOutcome
  | cancelled
  | accepted (name : String)
  | raisedError (msg : String)
  | blocked
deriving DecidableEq

/-- The `while True` prompt loop of `Runner.__call__`, driven by the
list of responses the operator would type: each iteration consumes one
response and `name_loop_body` decides how the loop ends. An empty list
means the loop is still waiting for input. -/
def name_resolution_loop (ndots : Option Nat) : List String → SessionOutcome
  | [] => .blocked
  | inp :: _ =>
    match name_loop_body ndots inp with
    | .exitCancelled => .cancelled
    | .breakWith n => .accepted n
    | .raiseErr e => .raisedError e

/-- Modelled from the spec: `ConfigResolver` is described in the
specification but its code is not under `src/` (only the CLI front end
is); the error kinds of its interpolation step. -/
inductive ConfigError
  | circularReference (key : String)
  | unknownVariable (key : String)
deriving DecidableEq

/-- A piece of a configuration value: a literal character or a
placeholder of the form written between percent-parenthesis and the
closing parenthesis-s. -/
inductive Seg
  | lit (c : Char)
  | ph (key : String)
deriving DecidableEq

/-- Split a character list at its first closing parenthesis, returning
the part before it and the part after it. -/
def splitAtRparen : List Char → Option (List Char × List Char)
  | [] => none
  | c :: rest =>
    if c = ')' then some ([], rest)
    else
      match splitAtRparen rest with
      | some (key, after) => some (c :: key, after)
      | none => none

/-- Recognise a placeholder at the head of a character list, returning
its key and the remainder after the placeholder. -/
def phHead (cs : List Char) : Option (String × List Char) :=
  match cs with
  | '%' :: '(' :: rest =>
    match splitAtRparen rest with
    | some (key, after) =>
      match after with
      | 's' :: tail => some (String.mk key, tail)
      | _ => none
    | none => none
  | _ => none

/-- Modelled from the spec: parse a configuration value into literal
characters and placeholder keys. The fuel argument is structural and
only bounds the recursion; the wrapper `parseSegs` supplies one unit
per input character, which each step consumes at least one of. -/
def parseSegsAux : Nat → List Char → List Seg
  | 0, _ => []
  | _ + 1, [] => []
  | fuel + 1, c :: rest =>
    match phHead (c :: rest) with
    | some (key, tail) => .ph key :: parseSegsAux fuel tail
    | none => .lit c :: parseSegsAux fuel rest

/-- Modelled from the spec: parse a configuration value into literal
characters and placeholder keys. -/
def parseSegs (cs : List Char) : List Seg := parseSegsAux cs.length cs

/-- First placeholder key in a segment list, used to name the cycle
when interpolation fuel runs out. -/
def firstPhKey : List Seg → String
  | [] => ""
  | .ph key :: _ => key
  | .lit _ :: rest => firstPhKey rest

/-- Modelled from the spec: evaluate parsed segments against the merged
section, substituting each placeholder with the already-merged value of
its key, recursively; a missing key fails with `unknownVariable`, and
exhausted fuel (possible, for the generous fuel `interpFuel`, only on a
self-referential chain) fails with `circularReference` naming a key of
the chain. -/
def evalSegs (env : List (String × String)) :
    Nat → List Seg → Except ConfigError (List Char)
  | 0, segs => .error (.circularReference (firstPhKey segs))
  | _ + 1, [] => .ok []
  | fuel + 1, .lit c :: rest =>
    match evalSegs env fuel rest with
    | .ok out => .ok (c :: out)
    | .error e => .error e
  | fuel + 1, .ph key :: rest =>
    match lookupD env key with
    | none => .error (.unknownVariable key)
    | some v =>
      match evalSegs env fuel (parseSegs v.toList) with
      | .error e => .error e
      | .ok vOut =>
        match evalSegs env fuel rest with
        | .error e => .error e
        | .ok out => .ok (vOut ++ out)

/-- One more than the number of characters in a section's values. -/
def charSum (env : List (String × String)) : Nat :=
  env.foldl (fun n p => n + p.2.length + 1) 1

/-- Interpolation fuel: an overapproximation of the size of any
acyclic expansion tree over the merged section. -/
def interpFuel (merged : List (String × String)) : Nat :=
  (charSum merged + 2) ^ (merged.length + 2)

/-- Modelled from the spec: interpolate every value of the merged
section against the merged section itself. -/
def interpMap (merged : List (String × String)) :
    List (String × String) → Except ConfigError (List (String × String))
  | [] => .ok []
  | (k, v) :: rest =>
    match evalSegs merged (interpFuel merged) (parseSegs v.toList) with
    | .error e => .error e
    | .ok cs =>
      match interpMap merged rest with
      | .error e => .error e
      | .ok restOut => .ok ((k, String.mk cs) :: restOut)

/-- Modelled from the spec: `ConfigResolver.resolve_for` (missing from
`src/`) — start from the DEFAULT section, overwrite and extend it with
the template-named section, interpolate every value, and apply the CLI
overrides last, overwriting unconditionally. -/
def resolve_for (defaults sect cli : List (String × String)) :
    Except ConfigError (List (String × String)) :=
  match interpMap (List.foldl (fun m p => dictInsert p.1 p.2 m) defaults sect)
      (List.foldl (fun m p => dictInsert p.1 p.2 m) defaults sect) with
  | .error e => .error e
  | .ok interpolated =>
    .ok (List.foldl (fun m p => dictInsert p.1 p.2 m) interpolated cli)

/-- C1: the code contradicts the claim (and its own docstring and the
unused `ID_WARNING` message): `_checkdots` accepts the name
`foo..bar`, whose empty middle segment is not a legal identifier, and
likewise a single segment starting with a digit — it checks nothing but
the dot ceiling. -/
theorem checkdots_accepts_illegal_segments :
    _checkdots (some 2) "foo..bar" = .ok () ∧ _checkdots (some 0) "1abc" = .ok () := by
  decide

/-- C2: the code contradicts the claim (and its own docstring):
`_checkdots` succeeds on names whose dot-count differs from the
template's expected depth — with `ndots = 1` both the depth-0 name
`foo` and the depth-2 name `a.b.c` are accepted. -/
theorem checkdots_ignores_expected_depth :
    _checkdots (some 1) "foo" = .ok () ∧ _checkdots (some 1) "a.b.c" = .ok () := by
  decide

/-- C3: the code contradicts the claim: on the first validation error
the prompt loop re-raises the `ValueError` and terminates instead of
re-prompting — with operator responses `a.b.c.d.e.f.g` then `foo`, the
loop ends in `raisedError` and never accepts the valid second
response. -/
theorem name_loop_aborts_on_first_invalid :
    name_resolution_loop none ["a.b.c.d.e.f.g", "foo"] = .raisedError dotLimitMsg ∧
      name_resolution_loop none ["a.b.c.d.e.f.g", "foo"] ≠ .accepted "foo" := by
  decide

/-- C8: any candidate name with more than five dots is rejected by
`_checkdots`, whatever the template's `ndots` says. -/
theorem checkdots_hard_ceiling (ndots : Option Nat) (name : String)
    (h : 5 < countDots name) : _checkdots ndots name = .error dotLimitMsg := by
  simp [_checkdots, h]

/-- Witness for C8 at a concrete six-dot name and a template that
requests an even greater depth. -/
theorem checkdots_hard_ceiling_witness :
    5 < countDots "a.b.c.d.e.f.g" ∧
      _checkdots (some 10) "a.b.c.d.e.f.g" = .error dotLimitMsg :=
  ⟨by decide, checkdots_hard_ceiling (some 10) "a.b.c.d.e.f.g" (by decide)⟩

/-- C5 counterexample: `_process_args` mutates the sequence it is
given — after the call on `[skel, foo]` the caller's list is no longer
`[skel, foo]` (its first element has been popped). -/
theorem process_args_mutates_input :
    (_process_args_full ["skel", "foo"]).1 ≠ ["skel", "foo"] := by
  decide

/-- C5 amended: `_process_args` removes the first token from the
caller's sequence (the sequence afterwards is exactly the tail of the
original; an empty sequence stays empty), and aside from this mutation
the call is a function of the token values alone. -/
theorem process_args_mutation_exact (args : List String) :
    (_process_args_full args).1 = args.tail ∧
      (_process_args_full args).2 = _process_args args := by
  cases args <;> simp [_process_args_full, _process_args]

/-- C10: a token whose first `=` sits at a positive index but which
contains at least one further `=` (three or more split parts) makes the
parse fail with the unhandled `ValueError` escaping from the two-way
unpacking of `arg.split('=')` — not with the caught `SyntaxError` kinds
— and contributes no override. -/
theorem double_eq_unhandled (t arg : String) (rest : List String) (n : Nat)
    (h1 : eqIndex arg = some (n + 1)) (h2 : 3 ≤ (splitEq arg.toList).length) :
    _process_args (t :: arg :: rest) = .error (.unhandledValueError arg) := by
  simp only [_process_args, _process_args_full, _process_args_loop, h1]
  match hs : splitEq arg.toList with
  | [] => exact absurd h2 (by rw [hs]; simp)
  | [_] => exact absurd h2 (by rw [hs]; simp)
  | [_, _] => exact absurd h2 (by rw [hs]; simp)
  | _ :: _ :: _ :: _ => simp

/-- Witness for C10 at the concrete token `a=b=c`. -/
theorem double_eq_unhandled_witness :
    eqIndex "a=b=c" = some 1 ∧ 3 ≤ (splitEq "a=b=c".toList).length ∧
      _process_args ["skel", "a=b=c"] = .error (.unhandledValueError "a=b=c") :=
  ⟨by decide, by decide, double_eq_unhandled "skel" "a=b=c" [] 0 (by decide) (by decide)⟩

/-- C6 counterexample: the tokens after the template in
`[skel, <empty>, foo]` contain two tokens without `=`, yet the parse
succeeds — the empty first bare token leaves `output_name` falsy, so
the second bare token silently replaces it instead of raising. -/
theorem process_args_two_bare_accepts_empty :
    _process_args ["skel", "", "foo"] = .ok ⟨"skel", some "foo", []⟩ := by
  decide

/-- C7 counterexample: with tokens `[skel, x, y, svn-repository=r]` the
parse fails with `MalformedArgumentError` on the second bare token `y`,
not with `UnsupportedArgumentError`, although an `svn-repository` key
is present. -/
theorem svn_error_preempted :
    _process_args ["skel", "x", "y", "svn-repository=r"] = .error (.malformed "y") ∧
      _process_args ["skel", "x", "y", "svn-repository=r"] ≠ .error .svnRepository := by
  decide
/-- First-some choice on options, used to state lookup decompositions. -/
def oOr : Option String → Option String → Option String
  | some v, _ => some v
  | none, b => b

theorem lookupD_dictInsert (kI v : String) (m : List (String × String)) (k : String) :
    lookupD (dictInsert kI v m) k = if kI = k then some v else lookupD m k := by
  induction m with
  | nil => simp [dictInsert, lookupD]
  | cons p rest ih =>
    obtain ⟨k', v'⟩ := p
    by_cases hk : k' = kI
    · subst hk
      by_cases h2 : k' = k <;> simp [dictInsert, lookupD, h2]
    · simp only [dictInsert, if_neg hk, lookupD]
      by_cases h2 : k' = k
      · have h3 : ¬kI = k := fun h => hk (h2.trans h.symm)
        simp [lookupD, if_pos h2, if_neg h3]
      · simp [lookupD, if_neg h2, ih]

/-- Number of tokens that contain no equals sign and are not empty. -/
def bareTokenCount (toks : List String) : Nat :=
  toks.countP (fun t => (eqIndex t).isNone && !(t == ""))

theorem loop_fails_of_truthy_and_bare (rest : List String) :
    ∀ (oname : Option String) (others : List (String × String)),
      pyFalsy oname = false → 1 ≤ bareTokenCount rest →
      exceptOk (_process_args_loop oname others rest) = false := by
  induction rest with
  | nil => intro oname others hf hc; simp [bareTokenCount] at hc
  | cons arg rest ih =>
    intro oname others hf hc
    simp only [_process_args_loop]
    cases he : eqIndex arg with
    | none => simp [hf, exceptOk]
    | some n =>
      cases n with
      | zero => simp [exceptOk]
      | succ m =>
        match hs : splitEq arg.toList with
        | [kcs, vcs] =>
          cases hsvn : hasSvnKey kcs with
          | true => simp [hsvn, exceptOk]
          | false =>
            simp only [hsvn, Bool.false_eq_true, if_false]
            have hcnt : bareTokenCount (arg :: rest) = bareTokenCount rest := by
              simp [bareTokenCount, List.countP_cons, he]
            exact ih _ _ hf (by omega)
        | [] => simp [exceptOk]
        | [_] => simp [exceptOk]
        | _ :: _ :: _ :: _ => simp [exceptOk]

theorem loop_fails_of_two_bare (rest : List String) :
    ∀ (oname : Option String) (others : List (String × String)),
      2 ≤ bareTokenCount rest →
      exceptOk (_process_args_loop oname others rest) = false := by
  induction rest with
  | nil => intro _ _ hc; simp [bareTokenCount] at hc
  | cons arg rest ih =>
    intro oname others hc
    simp only [_process_args_loop]
    cases he : eqIndex arg with
    | none =>
      cases hf : pyFalsy oname with
      | false => simp [hf, exceptOk]
      | true =>
        simp only [hf, if_true]
        by_cases harg : arg = ""
        · have hcnt : bareTokenCount (arg :: rest) = bareTokenCount rest := by
            simp [bareTokenCount, List.countP_cons, harg]
          exact ih _ _ (by omega)
        · have htr : pyFalsy (some arg) = false := by
            simp [pyFalsy, harg]
          have hcnt : bareTokenCount (arg :: rest) = bareTokenCount rest + 1 := by
            simp [bareTokenCount, List.countP_cons, he, harg]
          exact loop_fails_of_truthy_and_bare rest _ _ htr (by omega)
    | some n =>
      cases n with
      | zero => simp [exceptOk]
      | succ m =>
        match hs : splitEq arg.toList with
        | [kcs, vcs] =>
          cases hsvn : hasSvnKey kcs with
          | true => simp [hsvn, exceptOk]
          | false =>
            simp only [hsvn, Bool.false_eq_true, if_false]
            have hcnt : bareTokenCount (arg :: rest) = bareTokenCount rest := by
              simp [bareTokenCount, List.countP_cons, he]
            exact ih _ _ (by omega)
        | [] => simp [exceptOk]
        | [_] => simp [exceptOk]
        | _ :: _ :: _ :: _ => simp [exceptOk]

/-- C6 amended: when the tokens after the template contain two or more
non-empty tokens without `=`, the parse never succeeds — only the first
non-empty bare token can become `output_name`, and a later one makes
some error inevitable (a `MalformedArgumentError` when no earlier token
already fails with its own error); an empty bare token, however, is
silently replaced rather than treated as an error. -/
theorem process_args_two_nonempty_bare_fails (t : String) (rest : List String)
    (h : 2 ≤ bareTokenCount rest) :
    exceptOk (_process_args (t :: rest)) = false := by
  simp only [_process_args, _process_args_full]
  cases hl : _process_args_loop none [] rest with
  | ok p =>
    have := loop_fails_of_two_bare rest none [] h
    rw [hl] at this
    simp [exceptOk] at this
  | error e => simp [exceptOk]

/-- A token that `_process_args` would split in two and reject for its
`svn-repository` key: a single `=` at a positive index, with the key
part containing the banned substring. -/
def isSvnToken (tok : String) : Bool :=
  match eqIndex tok with
  | some (_ + 1) =>
    match splitEq tok.toList with
    | [kcs, _] => hasSvnKey kcs
    | _ => false
  | _ => false

theorem isSvnToken_elim {tok : String} (h : isSvnToken tok = true) :
    ∃ n kcs vcs, eqIndex tok = some (n + 1) ∧ splitEq tok.toList = [kcs, vcs] ∧
      hasSvnKey kcs = true := by
  unfold isSvnToken at h
  split at h
  next n heq =>
    split at h
    next kcs vcs hs => exact ⟨n, kcs, vcs, heq, hs, h⟩
    next => simp at h
  next => simp at h

theorem loop_fails_of_svn (rest : List String) :
    ∀ (oname : Option String) (others : List (String × String)),
      (∃ tok, tok ∈ rest ∧ isSvnToken tok = true) →
      exceptOk (_process_args_loop oname others rest) = false := by
  induction rest with
  | nil =>
    intro _ _ hex
    obtain ⟨tok, htok, _⟩ := hex
    simp at htok
  | cons arg rest ih =>
    intro oname others hex
    obtain ⟨tok, htok, hsvn⟩ := hex
    simp only [_process_args_loop]
    rcases List.mem_cons.mp htok with heq | hmem
    · subst heq
      obtain ⟨n, kcs, vcs, h1, h2, h3⟩ := isSvnToken_elim hsvn
      have h2d : splitEq tok.data = [kcs, vcs] := h2
      simp [h1, h2, h2d, h3, exceptOk]
    · cases he : eqIndex arg with
      | none =>
        cases hf : pyFalsy oname with
        | true =>
          simp only [hf, if_true]
          exact ih _ _ ⟨tok, hmem, hsvn⟩
        | false => simp [exceptOk]
      | some n =>
        cases n with
        | zero => simp [exceptOk]
        | succ m =>
          match hs : splitEq arg.toList with
          | [kcs, vcs] =>
            cases hk : hasSvnKey kcs with
            | true => simp [hk, exceptOk]
            | false =>
              simp only [hk, Bool.false_eq_true, if_false]
              exact ih _ _ ⟨tok, hmem, hsvn⟩
          | [] => simp [exceptOk]
          | [_] => simp [exceptOk]
          | _ :: _ :: _ :: _ => simp [exceptOk]

/-- C7 amended: a token sequence containing a key-value token whose key
contains `svn-repository` never parses successfully, wherever the token
appears — the failure is `UnsupportedArgumentError` when that token is
the first offending one, but an earlier ill-formed token fails first
with its own error. -/
theorem svn_token_parse_fails (t : String) (rest : List String)
    (h : ∃ tok ∈ rest, isSvnToken tok = true) :
    exceptOk (_process_args (t :: rest)) = false := by
  simp only [_process_args, _process_args_full]
  cases hl : _process_args_loop none [] rest with
  | ok p =>
    have := loop_fails_of_svn rest none [] h
    rw [hl] at this
    simp [exceptOk] at this
  | error e => simp [exceptOk]

/-- The key/value reading of a token, as `_process_args` would record
it: defined only for tokens with a single `=` at a positive index. -/
def tokKV (tok : String) : Option (String × String) :=
  match eqIndex tok with
  | some (_ + 1) =>
    match splitEq tok.toList with
    | [kcs, vcs] => some (String.mk kcs, String.mk vcs)
    | _ => none
  | _ => none

/-- The value of the last key-value token for `k` in a token list. -/
def lastKV (k : String) : List String → Option String
  | [] => none
  | tok :: rest =>
    match lastKV k rest with
    | some v => some v
    | none =>
      match tokKV tok with
      | some (k', v) => if k' = k then some v else none
      | none => none

theorem lastKV_cons_none {tok : String} (h : tokKV tok = none) (k : String)
    (rest : List String) : lastKV k (tok :: rest) = lastKV k rest := by
  simp only [lastKV, h]
  cases lastKV k rest <;> simp

theorem lastKV_cons_some {tok : String} {k' v : String}
    (h : tokKV tok = some (k', v)) (k : String) (rest : List String) :
    lastKV k (tok :: rest) =
      oOr (lastKV k rest) (if k' = k then some v else none) := by
  simp only [lastKV, h]
  cases lastKV k rest <;> simp [oOr]

theorem loop_overrides_lastKV (rest : List String) (k : String) :
    ∀ (oname : Option String) (others : List (String × String))
      (o : Option String) (m : List (String × String)),
      _process_args_loop oname others rest = .ok (o, m) →
      lookupD m k = oOr (lastKV k rest) (lookupD others k) := by
  induction rest with
  | nil =>
    intro oname others o m h
    simp only [_process_args_loop] at h
    cases h
    simp [lastKV, oOr]
  | cons arg rest ih =>
    intro oname others o m h
    simp only [_process_args_loop] at h
    cases he : eqIndex arg with
    | none =>
      rw [he] at h
      have htok : tokKV arg = none := by simp [tokKV, he]
      rw [lastKV_cons_none htok]
      cases hf : pyFalsy oname with
      | true =>
        rw [hf] at h
        simp only [if_true] at h
        exact ih _ _ _ _ h
      | false =>
        rw [hf] at h
        simp at h
    | some n =>
      rw [he] at h
      cases n with
      | zero => simp at h
      | succ nn =>
        match hs : splitEq arg.toList with
        | [kcs, vcs] =>
          rw [hs] at h
          replace h : (if hasSvnKey kcs then (Except.error ProcError.svnRepository :
                Except ProcError (Option String × List (String × String)))
              else _process_args_loop oname
                (dictInsert (String.mk kcs) (String.mk vcs) others) rest) =
              Except.ok (o, m) := h
          have htok : tokKV arg = some (String.mk kcs, String.mk vcs) := by
            have hsd : splitEq arg.data = [kcs, vcs] := hs
            simp [tokKV, he, hs, hsd]
          rw [lastKV_cons_some htok]
          cases hk : hasSvnKey kcs with
          | true => rw [hk] at h; simp at h
          | false =>
            rw [hk] at h
            simp only [Bool.false_eq_true, if_false] at h
            rw [ih _ _ _ _ h, lookupD_dictInsert]
            cases hlv : lastKV k rest with
            | some w => simp [oOr]
            | none =>
              by_cases hkk : String.mk kcs = k <;> simp [oOr, hkk]
        | [] =>
          rw [hs] at h
          replace h : (Except.error (ProcError.unhandledValueError arg) :
              Except ProcError (Option String × List (String × String))) =
              Except.ok (o, m) := h
          simp at h
        | [_] =>
          rw [hs] at h
          replace h : (Except.error (ProcError.unhandledValueError arg) :
              Except ProcError (Option String × List (String × String))) =
              Except.ok (o, m) := h
          simp at h
        | _ :: _ :: _ :: _ =>
          rw [hs] at h
          replace h : (Except.error (ProcError.unhandledValueError arg) :
              Except ProcError (Option String × List (String × String))) =
              Except.ok (o, m) := h
          simp at h

/-- C9: on a successful parse the overrides map agrees, on every key,
with the last key-value token for that key — each `key=value` token
with a non-empty key contributes its pair, a duplicated key keeps the
value of its last occurrence, and duplication raises no error. -/
theorem overrides_last_wins (t : String) (rest : List String) (k : String)
    (p : ParsedInvocation) (h : _process_args (t :: rest) = .ok p) :
    lookupD p.overrides k = lastKV k rest := by
  simp only [_process_args, _process_args_full] at h
  cases hl : _process_args_loop none [] rest with
  | error e => rw [hl] at h; cases h
  | ok pr =>
    obtain ⟨o, m⟩ := pr
    rw [hl] at h
    cases h
    have := loop_overrides_lastKV rest k none [] o m hl
    simp only [lookupD] at this
    cases hlv : lastKV k rest <;> simp [hlv, oOr] at this <;> simp [this]

/-- Witness for C6 amended at two concrete non-empty bare tokens. -/
theorem process_args_two_nonempty_bare_fails_witness :
    2 ≤ bareTokenCount ["alpha", "beta"] ∧
      exceptOk (_process_args ["skel", "alpha", "beta"]) = false :=
  ⟨by decide, process_args_two_nonempty_bare_fails "skel" ["alpha", "beta"] (by decide)⟩

/-- Witness for C7 amended with the banned token in last position. -/
theorem svn_token_parse_fails_witness :
    (∃ tok ∈ ["author=me", "svn-repository=r"], isSvnToken tok = true) ∧
      exceptOk (_process_args ["skel", "author=me", "svn-repository=r"]) = false :=
  ⟨⟨"svn-repository=r", by decide, by decide⟩,
   svn_token_parse_fails "skel" ["author=me", "svn-repository=r"]
     ⟨"svn-repository=r", by decide, by decide⟩⟩

/-- Witness for C9 with a duplicated key whose second value wins. -/
theorem overrides_last_wins_witness :
    lookupD (ParsedInvocation.mk "skel" none [("a", "3"), ("b", "2")]).overrides "a" =
        lastKV "a" ["a=1", "b=2", "a=3"] ∧
      lastKV "a" ["a=1", "b=2", "a=3"] = some "3" :=
  ⟨overrides_last_wins "skel" ["a=1", "b=2", "a=3"] "a"
     (ParsedInvocation.mk "skel" none [("a", "3"), ("b", "2")]) (by decide),
   by decide⟩

/-- The value of the last pair for a key in an association list. -/
def lastValP (k : String) : List (String × String) → Option String
  | [] => none
  | (k', v) :: rest =>
    match lastValP k rest with
    | some w => some w
    | none => if k' = k then some v else none

theorem lookupD_foldl_insert (l : List (String × String)) (k : String) :
    ∀ base : List (String × String),
      lookupD (List.foldl (fun m p => dictInsert p.1 p.2 m) base l) k =
        oOr (lastValP k l) (lookupD base k) := by
  induction l with
  | nil => intro base; simp [lastValP, oOr]
  | cons p rest ih =>
    intro base
    obtain ⟨k', v'⟩ := p
    simp only [List.foldl_cons]
    rw [ih, lookupD_dictInsert]
    simp only [lastValP]
    cases hlv : lastValP k rest with
    | some w => simp [oOr]
    | none => by_cases h2 : k' = k <;> simp [oOr, h2]

theorem lastValP_none_of_not_mem (k : String) :
    ∀ l : List (String × String), k ∉ l.map Prod.fst → lastValP k l = none := by
  intro l
  induction l with
  | nil => intro _; simp [lastValP]
  | cons p rest ih =>
    intro hmem
    obtain ⟨k', v'⟩ := p
    simp only [List.map_cons, List.mem_cons] at hmem
    push_neg at hmem
    simp only [lastValP, ih hmem.2]
    simp [hmem.1.symm]

theorem lastValP_of_nodup (cli : List (String × String)) (k v : String)
    (hnd : (cli.map Prod.fst).Nodup) (h : lookupD cli k = some v) :
    lastValP k cli = some v := by
  induction cli with
  | nil => simp [lookupD] at h
  | cons p rest ih =>
    obtain ⟨k', v'⟩ := p
    simp only [List.map_cons, List.nodup_cons] at hnd
    simp only [lookupD] at h
    by_cases h2 : k' = k
    · subst h2
      simp only [if_pos rfl] at h
      cases h
      simp only [lastValP, lastValP_none_of_not_mem k' rest hnd.1]
      simp
    · simp only [if_neg h2] at h
      simp only [lastValP, ih hnd.2 h]

/-- C4: a key supplied on the command line value always ends with its CLI
value in the resolved variables — `resolve_for` applies the overrides
last, unconditionally. -/
theorem resolve_for_cli_wins (defaults sect cli : List (String × String))
    (k v : String) (vars : List (String × String))
    (hnd : (cli.map Prod.fst).Nodup) (hcli : lookupD cli k = some v)
    (hok : resolve_for defaults sect cli = .ok vars) :
    lookupD vars k = some v := by
  unfold resolve_for at hok
  cases hint : interpMap (List.foldl (fun m p => dictInsert p.1 p.2 m) defaults sect)
      (List.foldl (fun m p => dictInsert p.1 p.2 m) defaults sect) with
  | error e =>
    rw [hint] at hok
    replace hok : (Except.error e : Except ConfigError (List (String × String))) =
        Except.ok vars := hok
    cases hok
  | ok interp =>
    rw [hint] at hok
    replace hok : (Except.ok (List.foldl (fun m p => dictInsert p.1 p.2 m) interp cli) :
        Except ConfigError (List (String × String))) = Except.ok vars := hok
    cases hok
    rw [lookupD_foldl_insert, lastValP_of_nodup cli k v hnd hcli]
    rfl

/-- Witness for C4 in the style of the spec's end-to-end scenario C: a
DEFAULT section with an interpolated keyword list, a template section
overriding the licence, and a CLI override for the licence that wins. -/
theorem resolve_for_cli_wins_witness :
    lookupD [("master", "base"), ("keywords", "base extra"), ("license_name", "MIT")]
        "license_name" = some "MIT" :=
  resolve_for_cli_wins
    [("master", "base"), ("keywords", "%(master)s extra"), ("license_name", "GPL")]
    [("license_name", "BSD")] [("license_name", "MIT")] "license_name" "MIT"
    [("master", "base"), ("keywords", "base extra"), ("license_name", "MIT")]
    (by decide) (by decide) (by decide)
